import Mathlib

/-!
Verification of the SMA-crossover backtest engine (`runSmaBacktest` and its
input-normalization pipeline). JavaScript numbers are modelled as exact
rationals (`ℚ`), JS integers as `ℤ`; `Math.floor` is `Int.floor`,
`Math.round` is `⌊x + 1/2⌋` (round half toward +∞, which is its JS
semantics), and fallible normalization returns `Except String`.
-/

/-- JS `Math.floor` on a finite number. -/
def jsFloor (q : ℚ) : ℤ := ⌊q⌋

/-- JS `Math.round` on a finite number: round half toward positive infinity. -/
def jsRound (q : ℚ) : ℤ := ⌊q + 1/2⌋

/-- Source `formatNumber`: `Math.round(value * 100) / 100`. -/
def formatNumber (value : ℚ) : ℚ := (jsRound (value * 100) : ℚ) / 100

/-- A rational that is a whole number of cents (the image of `formatNumber`). -/
def isCents (q : ℚ) : Prop := ∃ k : ℤ, q = (k : ℚ) / 100

/-- Rounding to the cent half away from zero, written from the words of the
spec sentence "round-half-away-from-zero on the cent"; for comparison with the
source's `formatNumber`. -/
def roundHalfAwayFromZeroCents (q : ℚ) : ℚ :=
  if q < 0 then -((⌊-q * 100 + 1/2⌋ : ℚ) / 100) else (⌊q * 100 + 1/2⌋ : ℚ) / 100

/-- JS string comparison `a < b` (lexicographic on code units), on char lists. -/
def jsLtChars : List Char → List Char → Bool
  | [], [] => false
  | [], _ :: _ => true
  | _ :: _, [] => false
  | c :: cs, d :: ds => if c < d then true else if d < c then false else jsLtChars cs ds

/-- JS string comparison `a < b` for strings. -/
def jsLtStr (a b : String) : Bool := jsLtChars a.data b.data

/-- Source `PriceBar` (field names as in the source). -/
structure PriceBar where
  Date : String
  Open : ℚ
  High : ℚ
  Low : ℚ
  Close : ℚ
  AdjClose : ℚ
  Volume : ℚ
  NextOpen : Option ℚ
deriving DecidableEq, Inhabited

/-- Source `Trade`. -/
structure Trade where
  entryDate : String
  exitDate : String
  entryPrice : ℚ
  exitPrice : ℚ
  shares : ℤ
  pnl : ℚ
  returnPct : ℚ
deriving DecidableEq, Inhabited

/-- Source `EquityPoint`. -/
structure EquityPoint where
  Date : String
  Equity : ℚ
deriving DecidableEq, Inhabited

/-- Source `BacktestSummary`. -/
structure BacktestSummary where
  initialEquity : ℚ
  finalEquity : ℚ
  totalReturnPct : ℚ
  tradeCount : ℕ
  winRatePct : ℚ
deriving DecidableEq

/-- Source `BacktestResult`. -/
structure BacktestResult where
  symbol : String
  name : String
  summary : BacktestSummary
  equityCurve : List EquityPoint
  trades : List Trade
  priceHistory : List PriceBar
deriving DecidableEq

/-- The two cases of the source's `PendingOrder` tagged union. -/
inductive OrderType
  | buy
  | sell
deriving DecidableEq, Inhabited

/-- Source `PendingOrder` (the `type` tag factored into `OrderType`). -/
structure PendingOrder where
  type : OrderType
  date : String
  price : ℚ
  shares : ℤ
deriving DecidableEq, Inhabited

/-- Source constant `INITIAL_EQUITY = 100_000`. -/
def INITIAL_EQUITY : ℚ := 100000

/-- Source constant `FAST_LENGTH = 5`. -/
def FAST_LENGTH : ℕ := 5

/-- Source constant `SLOW_LENGTH = 15`. -/
def SLOW_LENGTH : ℕ := 15

/-- Source `simpleMovingAverage`. `start := index + 1 - period` in truncated
ℕ subtraction equals the source's `Math.max(0, index - period + 1)`, and
`series.slice(start, index + 1)` is drop-then-take. The source's fallback
`series[index]` for an empty slice (only reachable when `index` is out of
range, where JS reads `undefined`) is modelled as `getD _ 0`. -/
def simpleMovingAverage (series : List ℚ) (index : ℕ) (period : ℕ) : ℚ :=
  let start := index + 1 - period
  let subset := (series.drop start).take (index + 1 - start)
  if subset.length ≠ 0 then subset.sum / subset.length else series.getD index 0

/-- The fast SMA at a bar index (`FAST_LENGTH = 5`). -/
def fastOf (closes : List ℚ) (i : ℕ) : ℚ := simpleMovingAverage closes i FAST_LENGTH

/-- The slow SMA at a bar index (`SLOW_LENGTH = 15`). -/
def slowOf (closes : List ℚ) (i : ℕ) : ℚ := simpleMovingAverage closes i SLOW_LENGTH

/-- Source `prevFast`: `i > 0 ? sma(closes, i-1, FAST) : fast`. -/
def prevFastOf (closes : List ℚ) (i : ℕ) : ℚ :=
  if 0 < i then simpleMovingAverage closes (i - 1) FAST_LENGTH else fastOf closes i

/-- Source `prevSlow`: `i > 0 ? sma(closes, i-1, SLOW) : slow`. -/
def prevSlowOf (closes : List ℚ) (i : ℕ) : ℚ :=
  if 0 < i then simpleMovingAverage closes (i - 1) SLOW_LENGTH else slowOf closes i

/-- Source `crossoverUp = fast > slow && prevFast <= prevSlow`. -/
def crossoverUp (closes : List ℚ) (i : ℕ) : Prop :=
  fastOf closes i > slowOf closes i ∧ prevFastOf closes i ≤ prevSlowOf closes i

/-- Source `crossoverDown = fast < slow && prevFast >= prevSlow`. -/
def crossoverDown (closes : List ℚ) (i : ℕ) : Prop :=
  fastOf closes i < slowOf closes i ∧ prevFastOf closes i ≥ prevSlowOf closes i

instance (closes : List ℚ) (i : ℕ) : Decidable (crossoverUp closes i) := by
  unfold crossoverUp
  infer_instance

instance (closes : List ℚ) (i : ℕ) : Decidable (crossoverDown closes i) := by
  unfold crossoverDown
  infer_instance

/-- The mutable locals of `runSmaBacktest`'s main loop, gathered in a state. -/
structure EngineState where
  cash : ℚ
  shares : ℤ
  entryPrice : ℚ
  entryDate : String
  trades : List Trade
  equityCurve : List EquityPoint
  pendingOrder : Option PendingOrder
deriving DecidableEq

/-- The loop state before the first iteration. -/
def initState : EngineState :=
  { cash := INITIAL_EQUITY, shares := 0, entryPrice := 0, entryDate := "",
    trades := [], equityCurve := [], pendingOrder := none }

/-- Order settlement: the `if (pendingOrder && pendingOrder.date === bar.Date)`
block at the top of the loop body. -/
def settleOrder (bar : PriceBar) (s : EngineState) : EngineState :=
  match s.pendingOrder with
  | none => s
  | some o =>
    if o.date = bar.Date then
      match o.type with
      | OrderType.buy =>
        { s with
          cash := s.cash - o.shares * o.price,
          shares := s.shares + o.shares,
          entryPrice := o.price,
          entryDate := o.date,
          pendingOrder := none }
      | OrderType.sell =>
        let exitPrice := o.price
        let proceeds := o.shares * exitPrice
        let costBasis := o.shares * s.entryPrice
        let pnl := proceeds - costBasis
        { s with
          cash := s.cash + proceeds,
          trades := s.trades ++ [{
            entryDate := s.entryDate,
            exitDate := o.date,
            entryPrice := formatNumber s.entryPrice,
            exitPrice := formatNumber exitPrice,
            shares := o.shares,
            pnl := formatNumber pnl,
            returnPct := formatNumber (if costBasis > 0 then pnl / costBasis * 100 else 0) }],
          shares := max (s.shares - o.shares) 0,
          entryPrice := 0,
          entryDate := "",
          pendingOrder := none }
    else s

/-- The pending order after the signal-evaluation block of iteration `i`
(the `if (!pendingOrder && nextBar)` block); `s.pendingOrder` when nothing is
created. -/
def plannedOrder (closes : List ℚ) (bars : List PriceBar) (i : ℕ) (s : EngineState) :
    Option PendingOrder :=
  match s.pendingOrder, bars.get? (i + 1) with
  | none, some nextBar =>
    if ¬ 0 < s.shares ∧ crossoverUp closes i then
      let entryPriceCandidate := nextBar.Open
      let investableCash := s.cash * 0.95
      let plannedShares := max (jsFloor (investableCash / entryPriceCandidate)) 0
      if 0 < plannedShares then
        some { type := OrderType.buy, date := nextBar.Date, price := entryPriceCandidate,
               shares := plannedShares }
      else none
    else if 0 < s.shares ∧ crossoverDown closes i then
      some { type := OrderType.sell, date := nextBar.Date, price := nextBar.Open,
             shares := s.shares }
    else none
  | po, _ => po

/-- Signal evaluation and order creation for iteration `i`. -/
def createOrder (closes : List ℚ) (bars : List PriceBar) (i : ℕ) (s : EngineState) :
    EngineState :=
  { s with pendingOrder := plannedOrder closes bars i s }

/-- Equity marking at the end of iteration `i`:
`equityCurve.push({Date: bar.Date, Equity: formatNumber(cash + shares * bar.Close)})`. -/
def markEquity (bar : PriceBar) (s : EngineState) : EngineState :=
  { s with equityCurve :=
      s.equityCurve ++ [{ Date := bar.Date, Equity := formatNumber (s.cash + s.shares * bar.Close) }] }

/-- The adjusted closes `closes = priceHistory.map(bar => bar.AdjClose)`. -/
def closesOf (bars : List PriceBar) : List ℚ := bars.map (·.AdjClose)

/-- One iteration of `runSmaBacktest`'s main loop, at index `i`. -/
def stepBar (closes : List ℚ) (bars : List PriceBar) (s : EngineState) (i : ℕ) : EngineState :=
  let bar := bars.getD i default
  markEquity bar (createOrder closes bars i (settleOrder bar s))

/-- The loop state after the first `n` iterations. -/
def loopState (bars : List PriceBar) (n : ℕ) : EngineState :=
  (List.range n).foldl (stepBar (closesOf bars) bars) initState

/-- The loop state after all iterations. -/
def runLoop (bars : List PriceBar) : EngineState := loopState bars bars.length

/-- Forced liquidation: the `if (shares > 0)` block after the loop. -/
def liquidate (bars : List PriceBar) (s : EngineState) : EngineState :=
  if 0 < s.shares then
    let lastBar := bars.getD (bars.length - 1) default
    let exitPrice := lastBar.Close
    let proceeds := s.shares * exitPrice
    let cost := s.shares * s.entryPrice
    let pnl := proceeds - cost
    let cash := s.cash + proceeds
    { s with
      cash := cash,
      trades := s.trades ++ [{
        entryDate := s.entryDate,
        exitDate := lastBar.Date,
        entryPrice := formatNumber s.entryPrice,
        exitPrice := formatNumber exitPrice,
        shares := s.shares,
        pnl := formatNumber pnl,
        returnPct := formatNumber (if cost > 0 then pnl / cost * 100 else 0) }],
      shares := 0,
      entryPrice := 0,
      entryDate := "",
      equityCurve := s.equityCurve.set (s.equityCurve.length - 1)
        { Date := lastBar.Date, Equity := formatNumber cash } }
  else s

/-- Summary derivation, from the tail of `runSmaBacktest`. -/
def mkSummary (trades : List Trade) (equityCurve : List EquityPoint) : BacktestSummary :=
  let initialEquity := ((equityCurve.get? 0).map (·.Equity)).getD INITIAL_EQUITY
  let finalEquity :=
    ((equityCurve.get? (equityCurve.length - 1)).map (·.Equity)).getD initialEquity
  let totalReturn :=
    if initialEquity ≠ 0 then (finalEquity - initialEquity) / initialEquity * 100 else 0
  let wins := (trades.filter (fun t => t.pnl > 0)).length
  { initialEquity := formatNumber initialEquity,
    finalEquity := formatNumber finalEquity,
    totalReturnPct := formatNumber totalReturn,
    tradeCount := trades.length,
    winRatePct := formatNumber (if trades.length ≠ 0 then (wins : ℚ) / trades.length * 100 else 0) }

/-- The engine proper: `runSmaBacktest` after `fetchPriceHistory` returned
`priceHistory` and `name` (the network fetch itself is outside the engine). -/
def runBacktestCore (symbol name : String) (priceHistory : List PriceBar) : BacktestResult :=
  let s := liquidate priceHistory (runLoop priceHistory)
  { symbol := symbol,
    name := name,
    summary := mkSummary s.trades s.equityCurve,
    equityCurve := s.equityCurve,
    trades := s.trades,
    priceHistory := priceHistory }

/-- A value of the source's `RawPriceRow` union
`string | number | null | undefined`; a non-finite number (`NaN`, `±Infinity`)
is kept as its own case since `ℚ` has only the finite values. -/
inductive RawValue
  | str (s : String)
  | fin (q : ℚ)
  | nonfinite
  | null
  | undef
deriving DecidableEq

/-- A raw row `Record<string, ...>` is a JS object: a map from key to value. -/
def RawPriceRow : Type := String → RawValue

/-- JS `a ?? b`: `b` when `a` is `null` or `undefined`. -/
def jsCoalesce (a b : RawValue) : RawValue :=
  match a with
  | RawValue.null => b
  | RawValue.undef => b
  | v => v

/-- JS `String.prototype.trim` modelled on the char list (kernel-reducible,
unlike `String.trim`): drop whitespace from both ends. -/
def jsTrim (s : String) : String :=
  ⟨((s.data.dropWhile (·.isWhitespace)).reverse.dropWhile (·.isWhitespace)).reverse⟩

/-- The source's date regex `/^\d{4}-\d{2}-\d{2}$/`. -/
def isCanonicalDate (s : String) : Bool :=
  match s.data with
  | [y1, y2, y3, y4, h1, m1, m2, h2, d1, d2] =>
    y1.isDigit && y2.isDigit && y3.isDigit && y4.isDigit && h1 = '-' &&
    m1.isDigit && m2.isDigit && h2 = '-' && d1.isDigit && d2.isDigit
  | _ => false

/-- Digits to a natural number, most significant first. -/
def natOfDigits (cs : List Char) : ℕ :=
  cs.foldl (fun acc c => acc * 10 + (c.toNat - 48)) 0

/-- JS `Number(string)` on a trimmed non-empty string, modelled for the plain
decimal forms `[+|-] digits [. digits]` and `[+|-] . digits`; every other
form is `none` (= `NaN`). The exotic JS forms (exponents, hex, `Infinity`)
do not occur in price data and are folded into `none`. -/
def jsParseNumber (s : String) : Option ℚ :=
  let core : List Char → Option ℚ := fun cs =>
    let intPart := cs.takeWhile (·.isDigit)
    let rest := cs.dropWhile (·.isDigit)
    match rest with
    | [] => if intPart.isEmpty then none else some (natOfDigits intPart : ℚ)
    | '.' :: fracPart =>
      if fracPart.all (·.isDigit) && !(intPart.isEmpty && fracPart.isEmpty) then
        some ((natOfDigits intPart : ℚ) + (natOfDigits fracPart : ℚ) / (10 ^ fracPart.length))
      else none
    | _ => none
  match s.data with
  | '-' :: cs => (core cs).map (fun q => -q)
  | '+' :: cs => core cs
  | cs => core cs

/-- Source `normalizeDate`. A canonical `YYYY-MM-DD` string (after trimming)
is returned as-is; the source's `new Date(...)` fallback for other strings is
modelled as rejection (the claims only concern canonical dates), and every
non-string throws. -/
def normalizeDate (value : RawValue) : Except String String :=
  match value with
  | RawValue.str s =>
    let normalized := jsTrim s
    if isCanonicalDate normalized then Except.ok normalized
    else Except.error ("Invalid timestamp value: " ++ s)
  | _ => Except.error "Invalid timestamp value"

/-- Source `normalizeNumber`: a finite number is accepted as-is (note: with no
sign check), a string is trimmed and parsed, everything else throws. -/
def normalizeNumber (value : RawValue) (field : String) : Except String ℚ :=
  match value with
  | RawValue.fin q => Except.ok q
  | RawValue.str s =>
    let trimmed := jsTrim s
    if trimmed.data.isEmpty then Except.error ("Missing numeric value for " ++ field)
    else
      match jsParseNumber trimmed with
      | some parsed => Except.ok parsed
      | none => Except.error ("Invalid numeric value for " ++ field)
  | _ => Except.error ("Invalid numeric value for " ++ field)

/-- Source `Omit<PriceBar, "NextOpen">`: a normalized row before the
`NextOpen` field is attached. -/
structure PriceRow where
  Date : String
  Open : ℚ
  High : ℚ
  Low : ℚ
  Close : ℚ
  AdjClose : ℚ
  Volume : ℚ
deriving DecidableEq, Inhabited

/-- Source `normalizeRow`. -/
def normalizeRow (row : RawPriceRow) : Except String PriceRow := do
  let date ← normalizeDate (jsCoalesce (row "Date") (jsCoalesce (row "date")
    (jsCoalesce (row "timestamp") (jsCoalesce (row "Timestamp") RawValue.null))))
  let o ← normalizeNumber (jsCoalesce (row "Open") (row "open")) "Open"
  let hi ← normalizeNumber (jsCoalesce (row "High") (row "high")) "High"
  let lo ← normalizeNumber (jsCoalesce (row "Low") (row "low")) "Low"
  let c ← normalizeNumber (jsCoalesce (row "Close") (row "close")) "Close"
  let adj ← normalizeNumber (jsCoalesce (row "Adj Close")
    (jsCoalesce (row "adjClose") (row "AdjClose"))) "Adj Close"
  let vol ← normalizeNumber (jsCoalesce (row "Volume")
    (jsCoalesce (row "volume") (RawValue.fin 0))) "Volume"
  Except.ok { Date := date, Open := o, High := hi, Low := lo, Close := c,
              AdjClose := adj, Volume := vol }

/-- Stable insertion of a row into an already-processed list, by date. -/
def insertByDate (r : PriceRow) : List PriceRow → List PriceRow
  | [] => [r]
  | b :: bs => if jsLtStr r.Date b.Date then r :: b :: bs else b :: insertByDate r bs

/-- The source's `.sort((a, b) => a.Date < b.Date ? -1 : a.Date > b.Date ? 1 : 0)`:
JS `Array.prototype.sort` is a stable sort under a consistent comparator, so
its result equals this stable insertion sort by date. -/
def sortByDate (rows : List PriceRow) : List PriceRow :=
  rows.foldl (fun acc r => insertByDate r acc) []

/-- The source's final map attaching
`NextOpen = index + 1 < normalized.length ? normalized[index + 1].Open : null`. -/
def attachNextOpen (rows : List PriceRow) : List PriceBar :=
  (List.range rows.length).map (fun index =>
    let row := rows.getD index default
    { Date := row.Date, Open := row.Open, High := row.High, Low := row.Low,
      Close := row.Close, AdjClose := row.AdjClose, Volume := row.Volume,
      NextOpen := if index + 1 < rows.length then some ((rows.getD (index + 1) default).Open)
                  else none })

/-- The pure part of source `fetchPriceHistory`: normalize every row (the
first bad row aborts with its error), sort by date, attach `NextOpen`. -/
def processHistory (rows : List RawPriceRow) : Except String (List PriceBar) := do
  let normalized ← rows.mapM normalizeRow
  Except.ok (attachNextOpen (sortByDate normalized))

/-- Whether an `Except` result is a success. -/
def exceptIsOk {ε α : Type} : Except ε α → Bool
  | Except.ok _ => true
  | Except.error _ => false

/-- The state inside iteration `i`, after order settlement and signal
evaluation but before equity marking. -/
def midState (bars : List PriceBar) (i : ℕ) : EngineState :=
  createOrder (closesOf bars) bars i (settleOrder (bars.getD i default) (loopState bars i))

/-- The equity point recorded for bar `i`: the bar's date, and
`cash + shares * Close` (of the post-settlement state) rounded to cents. -/
def barPoint (bars : List PriceBar) (i : ℕ) : EquityPoint :=
  { Date := (bars.getD i default).Date,
    Equity := formatNumber
      ((midState bars i).cash + (midState bars i).shares * (bars.getD i default).Close) }

/-- The loop invariant: what holds of the state after `n` iterations. -/
structure LoopInv (bars : List PriceBar) (n : ℕ) (s : EngineState) : Prop where
  curve : s.equityCurve = (List.range n).map (barPoint bars)
  sharesNonneg : 0 ≤ s.shares
  pending : ∀ o, s.pendingOrder = some o →
    n < bars.length ∧ o.date = (bars.getD n default).Date ∧
    o.price = (bars.getD n default).Open ∧ 0 < o.shares ∧
    (o.type = OrderType.buy → s.shares = 0 ∧
      o.shares = max (jsFloor (s.cash * 0.95 / o.price)) 0) ∧
    (o.type = OrderType.sell → o.shares = s.shares)
  entry : 0 < s.shares → ∃ j, j < n ∧ s.entryDate = (bars.getD j default).Date
  tradesSpec : ∀ t ∈ s.trades, 0 < t.shares ∧ isCents t.entryPrice ∧ isCents t.exitPrice ∧
    isCents t.pnl ∧ isCents t.returnPct ∧
    ∃ j k, j < k ∧ k < n ∧ t.entryDate = (bars.getD j default).Date ∧
      t.exitDate = (bars.getD k default).Date

/-- A concrete final bar with adjustable close, for concrete runs. -/
def lastBarX (x : ℚ) : PriceBar :=
  { Date := "2024-01-07", Open := 100, High := 100, Low := 100, Close := x,
    AdjClose := x, Volume := 1000, NextOpen := none }

/-- A concrete valid 7-bar series (ascending unique dates, positive prices):
flat, then a breakout at the sixth bar, so that a crossover-up fires at index
5, the buy settles on the final bar, and forced liquidation closes it at the
final close `x`. -/
def barsX (x : ℚ) : List PriceBar :=
  [{ Date := "2024-01-01", Open := 1, High := 1, Low := 1, Close := 1, AdjClose := 1,
     Volume := 1000, NextOpen := some 10 },
   { Date := "2024-01-02", Open := 10, High := 10, Low := 10, Close := 10, AdjClose := 10,
     Volume := 1000, NextOpen := some 10 },
   { Date := "2024-01-03", Open := 10, High := 10, Low := 10, Close := 10, AdjClose := 10,
     Volume := 1000, NextOpen := some 10 },
   { Date := "2024-01-04", Open := 10, High := 10, Low := 10, Close := 10, AdjClose := 10,
     Volume := 1000, NextOpen := some 10 },
   { Date := "2024-01-05", Open := 10, High := 10, Low := 10, Close := 10, AdjClose := 10,
     Volume := 1000, NextOpen := some 100 },
   { Date := "2024-01-06", Open := 100, High := 100, Low := 100, Close := 100, AdjClose := 100,
     Volume := 1000, NextOpen := some 100 },
   lastBarX x]

/-- An all-cash equity point at a given date. -/
def ptFlat (d : String) : EquityPoint := { Date := d, Equity := 100000 }

/-- The buy order the engine creates at index 5 of `barsX`. -/
def buyOrderX : PendingOrder :=
  { type := OrderType.buy, date := "2024-01-07", price := 100, shares := 950 }

/-- The loop state of `barsX` after 5 iterations. -/
def sX5 : EngineState :=
  { cash := 100000, shares := 0, entryPrice := 0, entryDate := "", trades := [],
    equityCurve := [ptFlat "2024-01-01", ptFlat "2024-01-02", ptFlat "2024-01-03",
      ptFlat "2024-01-04", ptFlat "2024-01-05"],
    pendingOrder := none }

/-- The loop state of `barsX` after 6 iterations: the buy order is pending. -/
def sX6 : EngineState :=
  { sX5 with equityCurve := sX5.equityCurve ++ [ptFlat "2024-01-06"],
             pendingOrder := some buyOrderX }

/-- The loop state of `barsX x` after all 7 iterations: the buy has settled
on the final bar. -/
def sX7 (x : ℚ) : EngineState :=
  { cash := 5000, shares := 950, entryPrice := 100, entryDate := "2024-01-07", trades := [],
    equityCurve := [ptFlat "2024-01-01", ptFlat "2024-01-02", ptFlat "2024-01-03",
      ptFlat "2024-01-04", ptFlat "2024-01-05", ptFlat "2024-01-06",
      { Date := "2024-01-07", Equity := formatNumber (5000 + 950 * x) }],
    pendingOrder := none }

/-- The trade forced liquidation emits for `barsX x`. -/
def tradeX (x : ℚ) : Trade :=
  { entryDate := "2024-01-07", exitDate := "2024-01-07", entryPrice := 100,
    exitPrice := formatNumber x, shares := 950, pnl := formatNumber (950 * x - 95000),
    returnPct := formatNumber ((950 * x - 95000) / 95000 * 100) }

/-- The engine state of `barsX x` after forced liquidation. -/
def sX8 (x : ℚ) : EngineState :=
  { cash := 5000 + 950 * x, shares := 0, entryPrice := 0, entryDate := "",
    trades := [tradeX x],
    equityCurve := [ptFlat "2024-01-01", ptFlat "2024-01-02", ptFlat "2024-01-03",
      ptFlat "2024-01-04", ptFlat "2024-01-05", ptFlat "2024-01-06",
      { Date := "2024-01-07", Equity := formatNumber (5000 + 950 * x) }],
    pendingOrder := none }

/-- A concrete raw input row dated 2024-01-01. -/
def rawRowA : RawPriceRow := fun k =>
  match k with
  | "Date" => RawValue.str "2024-01-01"
  | "Open" => RawValue.fin 1
  | "High" => RawValue.fin 1
  | "Low" => RawValue.fin 1
  | "Close" => RawValue.fin 1
  | "Adj Close" => RawValue.fin 1
  | "Volume" => RawValue.fin 1
  | _ => RawValue.undef

/-- A concrete raw input row dated 2024-01-02, with a negative close price. -/
def rawRowB : RawPriceRow := fun k =>
  match k with
  | "Date" => RawValue.str "2024-01-02"
  | "Open" => RawValue.fin 2
  | "High" => RawValue.fin 2
  | "Low" => RawValue.fin (-5)
  | "Close" => RawValue.fin (-5)
  | "Adj Close" => RawValue.fin (-5)
  | "Volume" => RawValue.fin 1
  | _ => RawValue.undef

/-! ## Basic lemmas about rounding -/

theorem isCents_formatNumber (q : ℚ) : isCents (formatNumber q) :=
  ⟨jsRound (q * 100), rfl⟩

theorem formatNumber_of_isCents {q : ℚ} (h : isCents q) : formatNumber q = q := by
  obtain ⟨k, rfl⟩ := h
  unfold formatNumber jsRound
  rw [show ((k : ℚ) / 100 * 100) = (k : ℚ) by field_simp]
  rw [add_comm, Int.floor_add_int]
  norm_num

theorem formatNumber_eq_self_iff (q : ℚ) : formatNumber q = q ↔ isCents q := by
  constructor
  · intro h
    exact h ▸ isCents_formatNumber q
  · exact formatNumber_of_isCents

theorem formatNumber_halfUp_bounds (q : ℚ) :
    q - 1/200 < formatNumber q ∧ formatNumber q ≤ q + 1/200 := by
  unfold formatNumber jsRound
  constructor
  · have h := Int.sub_one_lt_floor (q * 100 + 1/2)
    linarith
  · have h := Int.floor_le (q * 100 + 1/2)
    linarith

theorem fmt_hundredk : formatNumber 100000 = 100000 := by
  norm_num [formatNumber, jsRound]

/-! ## The loop, one step at a time -/

theorem loopState_succ (bars : List PriceBar) (n : ℕ) :
    loopState bars (n + 1) = stepBar (closesOf bars) bars (loopState bars n) n := by
  unfold loopState
  rw [List.range_succ, List.foldl_append, List.foldl_cons, List.foldl_nil]

theorem stepBar_eq_mark_mid (bars : List PriceBar) (n : ℕ) :
    stepBar (closesOf bars) bars (loopState bars n) n =
      markEquity (bars.getD n default) (midState bars n) := rfl

theorem markEquity_cash (bar : PriceBar) (s : EngineState) :
    (markEquity bar s).cash = s.cash := rfl

theorem markEquity_shares (bar : PriceBar) (s : EngineState) :
    (markEquity bar s).shares = s.shares := rfl

theorem markEquity_entryDate (bar : PriceBar) (s : EngineState) :
    (markEquity bar s).entryDate = s.entryDate := rfl

theorem markEquity_trades (bar : PriceBar) (s : EngineState) :
    (markEquity bar s).trades = s.trades := rfl

theorem markEquity_pendingOrder (bar : PriceBar) (s : EngineState) :
    (markEquity bar s).pendingOrder = s.pendingOrder := rfl

theorem createOrder_cash (closes : List ℚ) (bars : List PriceBar) (i : ℕ) (s : EngineState) :
    (createOrder closes bars i s).cash = s.cash := rfl

theorem createOrder_shares (closes : List ℚ) (bars : List PriceBar) (i : ℕ) (s : EngineState) :
    (createOrder closes bars i s).shares = s.shares := rfl

theorem createOrder_entryDate (closes : List ℚ) (bars : List PriceBar) (i : ℕ) (s : EngineState) :
    (createOrder closes bars i s).entryDate = s.entryDate := rfl

theorem createOrder_trades (closes : List ℚ) (bars : List PriceBar) (i : ℕ) (s : EngineState) :
    (createOrder closes bars i s).trades = s.trades := rfl

theorem createOrder_equityCurve (closes : List ℚ) (bars : List PriceBar) (i : ℕ)
    (s : EngineState) : (createOrder closes bars i s).equityCurve = s.equityCurve := rfl

theorem settleOrder_of_none (bar : PriceBar) (s : EngineState) (h : s.pendingOrder = none) :
    settleOrder bar s = s := by
  unfold settleOrder
  rw [h]

theorem settleOrder_of_buy (bar : PriceBar) (s : EngineState) (o : PendingOrder)
    (hpo : s.pendingOrder = some o) (hbuy : o.type = OrderType.buy) (hdate : o.date = bar.Date) :
    settleOrder bar s =
      { s with cash := s.cash - o.shares * o.price, shares := s.shares + o.shares,
               entryPrice := o.price, entryDate := o.date, pendingOrder := none } := by
  unfold settleOrder
  rw [hpo]
  simp only [hdate, eq_self_iff_true, if_true, hbuy]

theorem settleOrder_of_sell (bar : PriceBar) (s : EngineState) (o : PendingOrder)
    (hpo : s.pendingOrder = some o) (hsell : o.type = OrderType.sell) (hdate : o.date = bar.Date) :
    settleOrder bar s =
      { s with cash := s.cash + o.shares * o.price,
               trades := s.trades ++ [{
                 entryDate := s.entryDate,
                 exitDate := o.date,
                 entryPrice := formatNumber s.entryPrice,
                 exitPrice := formatNumber o.price,
                 shares := o.shares,
                 pnl := formatNumber (o.shares * o.price - o.shares * s.entryPrice),
                 returnPct := formatNumber (if o.shares * s.entryPrice > 0 then
                   (o.shares * o.price - o.shares * s.entryPrice) /
                     (o.shares * s.entryPrice) * 100 else 0) }],
               shares := max (s.shares - o.shares) 0, entryPrice := 0, entryDate := "",
               pendingOrder := none } := by
  unfold settleOrder
  rw [hpo]
  simp only [hdate, eq_self_iff_true, if_true, hsell]

theorem plannedOrder_of_some (closes : List ℚ) (bars : List PriceBar) (i : ℕ) (s : EngineState)
    (o : PendingOrder) (h : s.pendingOrder = some o) :
    plannedOrder closes bars i s = some o := by
  unfold plannedOrder
  rw [h]

theorem plannedOrder_spec (closes : List ℚ) (bars : List PriceBar) (i : ℕ) (s : EngineState)
    (o : PendingOrder) (hpo : s.pendingOrder = none)
    (h : plannedOrder closes bars i s = some o) :
    ∃ nb, bars.get? (i + 1) = some nb ∧ o.date = nb.Date ∧ o.price = nb.Open ∧
      ((o.type = OrderType.buy ∧ ¬ 0 < s.shares ∧
          o.shares = max (jsFloor (s.cash * 0.95 / nb.Open)) 0 ∧ 0 < o.shares ∧
          crossoverUp closes i) ∨
        (o.type = OrderType.sell ∧ 0 < s.shares ∧ o.shares = s.shares ∧
          crossoverDown closes i)) := by
  unfold plannedOrder at h
  rw [hpo] at h
  cases hnb : bars.get? (i + 1) with
  | none =>
    rw [hnb] at h
    exact absurd h (by simp)
  | some nb =>
    rw [hnb] at h
    dsimp only at h
    refine ⟨nb, rfl, ?_⟩
    by_cases h1 : ¬ 0 < s.shares ∧ crossoverUp closes i
    · rw [if_pos h1] at h
      by_cases h2 : 0 < max (jsFloor (s.cash * 0.95 / nb.Open)) 0
      · rw [if_pos h2] at h
        obtain rfl := (Option.some_inj.mp h).symm
        exact ⟨rfl, rfl, Or.inl ⟨rfl, h1.1, rfl, h2, h1.2⟩⟩
      · rw [if_neg h2] at h
        exact absurd h (by simp)
    · rw [if_neg h1] at h
      by_cases h2 : 0 < s.shares ∧ crossoverDown closes i
      · rw [if_pos h2] at h
        obtain rfl := (Option.some_inj.mp h).symm
        exact ⟨rfl, rfl, Or.inr ⟨rfl, h2.1, rfl, h2.2⟩⟩
      · rw [if_neg h2] at h
        exact absurd h (by simp)

theorem settle_facts (bars : List PriceBar) (n : ℕ) (ih : LoopInv bars n (loopState bars n)) :
    (settleOrder (bars.getD n default) (loopState bars n)).pendingOrder = none ∧
    (settleOrder (bars.getD n default) (loopState bars n)).equityCurve =
      (loopState bars n).equityCurve ∧
    0 ≤ (settleOrder (bars.getD n default) (loopState bars n)).shares ∧
    (0 < (settleOrder (bars.getD n default) (loopState bars n)).shares →
      ∃ j, j < n + 1 ∧ (settleOrder (bars.getD n default) (loopState bars n)).entryDate =
        (bars.getD j default).Date) ∧
    (∀ t ∈ (settleOrder (bars.getD n default) (loopState bars n)).trades,
      0 < t.shares ∧ isCents t.entryPrice ∧ isCents t.exitPrice ∧
      isCents t.pnl ∧ isCents t.returnPct ∧
      ∃ j k, j < k ∧ k < n + 1 ∧ t.entryDate = (bars.getD j default).Date ∧
        t.exitDate = (bars.getD k default).Date) := by
  have weakT : ∀ t ∈ (loopState bars n).trades, 0 < t.shares ∧ isCents t.entryPrice ∧
      isCents t.exitPrice ∧ isCents t.pnl ∧ isCents t.returnPct ∧
      ∃ j k, j < k ∧ k < n + 1 ∧ t.entryDate = (bars.getD j default).Date ∧
        t.exitDate = (bars.getD k default).Date := by
    intro t ht
    obtain ⟨h1, h2, h3, h4, h5, j, k, hjk, hk, hj1, hj2⟩ := ih.tradesSpec t ht
    exact ⟨h1, h2, h3, h4, h5, j, k, hjk, Nat.lt_succ_of_lt hk, hj1, hj2⟩
  cases hpo : (loopState bars n).pendingOrder with
  | none =>
    rw [settleOrder_of_none _ _ hpo]
    refine ⟨hpo, rfl, ih.sharesNonneg, ?_, weakT⟩
    intro hs
    obtain ⟨j, hj, hd⟩ := ih.entry hs
    exact ⟨j, Nat.lt_succ_of_lt hj, hd⟩
  | some o =>
    obtain ⟨hlen, hdate, hprice, hpos, hbuy, hsell⟩ := ih.pending o hpo
    cases hot : o.type with
    | buy =>
      rw [settleOrder_of_buy _ _ o hpo hot hdate]
      obtain ⟨hflat, hform⟩ := hbuy hot
      refine ⟨rfl, rfl, ?_, ?_, weakT⟩
      · simp only [hflat]
        omega
      · intro _
        exact ⟨n, Nat.lt_succ_self n, hdate⟩
    | sell =>
      rw [settleOrder_of_sell _ _ o hpo hot hdate]
      have hsh := hsell hot
      have hshpos : 0 < (loopState bars n).shares := hsh ▸ hpos
      obtain ⟨j, hj, hd⟩ := ih.entry hshpos
      refine ⟨rfl, rfl, ?_, ?_, ?_⟩
      · simp only [le_max_iff]
        right
        rfl
      · intro hcontra
        simp only [hsh, sub_self, max_self] at hcontra
        omega
      · intro t ht
        simp only [List.mem_append, List.mem_singleton] at ht
        rcases ht with ht | rfl
        · exact weakT t ht
        · exact ⟨hpos, isCents_formatNumber _, isCents_formatNumber _, isCents_formatNumber _,
            isCents_formatNumber _, j, n, hj, Nat.lt_succ_self n, hd, hdate⟩

theorem midState_cash (bars : List PriceBar) (n : ℕ) :
    (midState bars n).cash = (settleOrder (bars.getD n default) (loopState bars n)).cash := rfl

theorem midState_shares (bars : List PriceBar) (n : ℕ) :
    (midState bars n).shares =
      (settleOrder (bars.getD n default) (loopState bars n)).shares := rfl

theorem midState_entryDate (bars : List PriceBar) (n : ℕ) :
    (midState bars n).entryDate =
      (settleOrder (bars.getD n default) (loopState bars n)).entryDate := rfl

theorem midState_trades (bars : List PriceBar) (n : ℕ) :
    (midState bars n).trades =
      (settleOrder (bars.getD n default) (loopState bars n)).trades := rfl

theorem midState_equityCurve (bars : List PriceBar) (n : ℕ) :
    (midState bars n).equityCurve =
      (settleOrder (bars.getD n default) (loopState bars n)).equityCurve := rfl

theorem midState_pendingOrder (bars : List PriceBar) (n : ℕ) :
    (midState bars n).pendingOrder =
      plannedOrder (closesOf bars) bars n
        (settleOrder (bars.getD n default) (loopState bars n)) := rfl

theorem markEquity_equityCurve (bar : PriceBar) (s : EngineState) :
    (markEquity bar s).equityCurve =
      s.equityCurve ++ [{ Date := bar.Date, Equity := formatNumber (s.cash + s.shares * bar.Close) }] := rfl

theorem getD_of_get_eq_some {α : Type} [Inhabited α] {l : List α} {n : ℕ} {a : α}
    (h : l.get? n = some a) : l.getD n default = a := by
  rw [List.getD_eq_getElem?_getD, ← List.get?_eq_getElem?, h]
  rfl

theorem loopInv (bars : List PriceBar) : ∀ n, LoopInv bars n (loopState bars n) := by
  intro n
  induction n with
  | zero =>
    refine ⟨rfl, le_refl 0, ?_, ?_, ?_⟩
    · intro o h
      exact absurd h (by simp [loopState, initState])
    · intro h
      exact absurd h (by simp [loopState, initState])
    · intro t ht
      exact absurd ht (by simp [loopState, initState])
  | succ n ih =>
    rw [loopState_succ, stepBar_eq_mark_mid]
    obtain ⟨a1, a2, a3, a4, a5⟩ := settle_facts bars n ih
    refine ⟨?_, ?_, ?_, ?_, ?_⟩
    · show (midState bars n).equityCurve ++ [barPoint bars n] = _
      rw [midState_equityCurve, a2, ih.curve, List.range_succ, List.map_append]
      rfl
    · rw [markEquity_shares, midState_shares]
      exact a3
    · intro o2 ho2
      rw [markEquity_pendingOrder, midState_pendingOrder] at ho2
      obtain ⟨nb, hnb, hd2, hp2, hcases⟩ := plannedOrder_spec _ _ _ _ _ a1 ho2
      have hlen : n + 1 < bars.length := (List.get?_eq_some.mp hnb).1
      have hnbD : bars.getD (n + 1) default = nb := getD_of_get_eq_some hnb
      refine ⟨hlen, hnbD ▸ hd2, hnbD ▸ hp2, ?_, ?_, ?_⟩
      · rcases hcases with ⟨_, _, _, hps, _⟩ | ⟨_, hps, hsh, _⟩
        · exact hps
        · rw [hsh]
          exact hps
      · intro hbuy2
        rcases hcases with ⟨_, hnotpos, hform, _, _⟩ | ⟨hsell2, _, _, _⟩
        · constructor
          · rw [markEquity_shares, midState_shares]
            omega
          · rw [markEquity_cash, midState_cash, hp2]
            exact hform
        · rw [hbuy2] at hsell2
          exact absurd hsell2 (by simp)
      · intro hsell2
        rcases hcases with ⟨hbuy2, _, _, _, _⟩ | ⟨_, _, hsh, _⟩
        · rw [hsell2] at hbuy2
          exact absurd hbuy2 (by simp)
        · rw [markEquity_shares, midState_shares]
          exact hsh
    · intro hs
      rw [markEquity_shares, midState_shares] at hs
      rw [markEquity_entryDate, midState_entryDate]
      exact a4 hs
    · intro t ht
      rw [markEquity_trades, midState_trades] at ht
      exact a5 t ht

/-! ## Concrete runs on the `barsX` family -/

theorem fastOf_eq_slowOf_zero (closes : List ℚ) : fastOf closes 0 = slowOf closes 0 := rfl

theorem fastOf_eq_slowOf_one (closes : List ℚ) : fastOf closes 1 = slowOf closes 1 := rfl

theorem fastOf_eq_slowOf_two (closes : List ℚ) : fastOf closes 2 = slowOf closes 2 := rfl

theorem fastOf_eq_slowOf_three (closes : List ℚ) : fastOf closes 3 = slowOf closes 3 := rfl

theorem fastOf_eq_slowOf_four (closes : List ℚ) : fastOf closes 4 = slowOf closes 4 := rfl

theorem prevFast_eq_prevSlow_five (closes : List ℚ) :
    prevFastOf closes 5 = prevSlowOf closes 5 := rfl

theorem not_crossUp_of_eq {closes : List ℚ} {i : ℕ} (h : fastOf closes i = slowOf closes i) :
    ¬ crossoverUp closes i := fun hc => absurd (h ▸ hc.1) (lt_irrefl _)

theorem stepBar_flat (closes : List ℚ) (bars : List PriceBar) (i : ℕ) (s : EngineState)
    (hpo : s.pendingOrder = none) (hsh : s.shares = 0) (hup : ¬ crossoverUp closes i) :
    stepBar closes bars s i =
      { s with equityCurve := s.equityCurve ++
          [{ Date := (bars.getD i default).Date, Equity := formatNumber s.cash }] } := by
  unfold stepBar settleOrder createOrder plannedOrder markEquity
  rw [hpo]
  cases hnb : bars.get? (i + 1) with
  | none => simp [hpo, hsh]
  | some nb => simp [hpo, hsh, hup]

theorem closesX (x : ℚ) : closesOf (barsX x) = [1, 10, 10, 10, 10, 100, x] := by
  simp [closesOf, barsX, lastBarX]

theorem fastX5 (x : ℚ) : fastOf [1, 10, 10, 10, 10, 100, x] 5 =
    ([10, 10, 10, 10, 100] : List ℚ).sum / ((5 : ℕ) : ℚ) := rfl

theorem slowX5 (x : ℚ) : slowOf [1, 10, 10, 10, 10, 100, x] 5 =
    ([1, 10, 10, 10, 10, 100] : List ℚ).sum / ((6 : ℕ) : ℚ) := rfl

theorem crossUpX5 (x : ℚ) : crossoverUp (closesOf (barsX x)) 5 := by
  rw [closesX]
  refine ⟨?_, le_of_eq (prevFast_eq_prevSlow_five _)⟩
  rw [fastX5, slowX5]
  norm_num [List.sum_cons]

theorem stepBar_buySignal (closes : List ℚ) (bars : List PriceBar) (i : ℕ) (s : EngineState)
    (nb : PriceBar) (k : ℤ) (hpo : s.pendingOrder = none) (hsh : s.shares = 0)
    (hnb : bars.get? (i + 1) = some nb) (hup : crossoverUp closes i)
    (hk : jsFloor (s.cash * 0.95 / nb.Open) = k) (hkpos : 0 < k) :
    stepBar closes bars s i =
      { s with
        pendingOrder := some { type := OrderType.buy, date := nb.Date, price := nb.Open,
                               shares := k },
        equityCurve := s.equityCurve ++
          [{ Date := (bars.getD i default).Date, Equity := formatNumber s.cash }] } := by
  unfold stepBar settleOrder createOrder plannedOrder markEquity
  rw [hpo, hnb]
  have hmax : max (jsFloor (s.cash * 0.95 / nb.Open)) 0 = k := by
    rw [hk]
    exact max_eq_left hkpos.le
  simp [hpo, hsh, hup, hmax, hkpos]

theorem stepBar_settleBuyLast (closes : List ℚ) (bars : List PriceBar) (i : ℕ) (s : EngineState)
    (o : PendingOrder) (hpo : s.pendingOrder = some o) (hbuy : o.type = OrderType.buy)
    (hdate : o.date = (bars.getD i default).Date) (hnb : bars.get? (i + 1) = none) :
    stepBar closes bars s i =
      { s with
        cash := s.cash - o.shares * o.price,
        shares := s.shares + o.shares,
        entryPrice := o.price,
        entryDate := o.date,
        pendingOrder := none,
        equityCurve := s.equityCurve ++
          [{ Date := (bars.getD i default).Date,
             Equity := formatNumber ((s.cash - o.shares * o.price) +
               ((s.shares + o.shares : ℤ) : ℚ) * (bars.getD i default).Close) }] } := by
  unfold stepBar settleOrder createOrder plannedOrder markEquity
  simp only [hpo, hnb, hdate, hbuy, eq_self_iff_true, if_true, Int.cast_add]

theorem stateX5 (x : ℚ) : loopState (barsX x) 5 = sX5 := by
  have h0 : loopState (barsX x) 0 = initState := rfl
  rw [show (5 : ℕ) = 4 + 1 from rfl, loopState_succ]
  rw [show (4 : ℕ) = 3 + 1 from rfl, loopState_succ]
  rw [show (3 : ℕ) = 2 + 1 from rfl, loopState_succ]
  rw [show (2 : ℕ) = 1 + 1 from rfl, loopState_succ]
  rw [show (1 : ℕ) = 0 + 1 from rfl, loopState_succ, h0]
  rw [stepBar_flat _ _ _ _ rfl rfl (not_crossUp_of_eq (fastOf_eq_slowOf_zero _))]
  rw [stepBar_flat _ _ _ _ rfl rfl (not_crossUp_of_eq (fastOf_eq_slowOf_one _))]
  rw [stepBar_flat _ _ _ _ rfl rfl (not_crossUp_of_eq (fastOf_eq_slowOf_two _))]
  rw [stepBar_flat _ _ _ _ rfl rfl (not_crossUp_of_eq (fastOf_eq_slowOf_three _))]
  rw [stepBar_flat _ _ _ _ rfl rfl (not_crossUp_of_eq (fastOf_eq_slowOf_four _))]
  simp [initState, INITIAL_EQUITY, barsX, lastBarX, ptFlat, fmt_hundredk, sX5]

theorem stateX6 (x : ℚ) : loopState (barsX x) 6 = sX6 := by
  rw [show (6 : ℕ) = 5 + 1 from rfl, loopState_succ, stateX5]
  rw [stepBar_buySignal (closesOf (barsX x)) (barsX x) 5 sX5 (lastBarX x) 950
    rfl rfl rfl (crossUpX5 x) (by norm_num [jsFloor, sX5, lastBarX]) (by norm_num)]
  simp [sX5, sX6, barsX, lastBarX, buyOrderX, fmt_hundredk, ptFlat]

theorem stateX7 (x : ℚ) : loopState (barsX x) 7 = sX7 x := by
  rw [show (7 : ℕ) = 6 + 1 from rfl, loopState_succ, stateX6]
  rw [stepBar_settleBuyLast (closesOf (barsX x)) (barsX x) 6 sX6 buyOrderX
    rfl rfl (by simp [sX6, buyOrderX, barsX, lastBarX]) rfl]
  norm_num [sX6, sX5, sX7, barsX, lastBarX, buyOrderX, ptFlat, fmt_hundredk]

theorem liquidX (x : ℚ) : liquidate (barsX x) (sX7 x) = sX8 x := by
  unfold liquidate
  rw [if_pos (by norm_num [sX7])]
  norm_num [sX7, sX8, barsX, lastBarX, tradeX, ptFlat]
  norm_num [formatNumber, jsRound]

theorem runX (x : ℚ) : runBacktestCore "SYM" "NAME" (barsX x) =
    { symbol := "SYM", name := "NAME",
      summary := mkSummary [tradeX x] (sX8 x).equityCurve,
      equityCurve := (sX8 x).equityCurve,
      trades := [tradeX x],
      priceHistory := barsX x } := by
  unfold runBacktestCore runLoop
  rw [show (barsX x).length = 7 from rfl, stateX7, liquidX]
  simp only [sX8]

/-- Counterexample to claim C2 as stated: on the valid series `barsX 100`
(strictly ascending unique dates, positive prices), the single emitted trade
is the forced liquidation of a position entered on the final bar, so its
`exitDate` equals its `entryDate` instead of being strictly later. -/
theorem c2_counterexample :
    (barsX 100).Pairwise (fun a b => jsLtStr a.Date b.Date = true) ∧
    (∀ b ∈ barsX 100, 0 < b.Open ∧ 0 < b.High ∧ 0 < b.Low ∧ 0 < b.Close ∧ 0 < b.AdjClose) ∧
    (runBacktestCore "SYM" "NAME" (barsX 100)).trades.length = 1 ∧
    ((runBacktestCore "SYM" "NAME" (barsX 100)).trades.getD 0 default).shares = 950 ∧
    ((runBacktestCore "SYM" "NAME" (barsX 100)).trades.getD 0 default).entryDate =
      ((runBacktestCore "SYM" "NAME" (barsX 100)).trades.getD 0 default).exitDate := by
  refine ⟨by decide, ?_, ?_, ?_, ?_⟩
  · intro b hb
    simp [barsX, lastBarX] at hb
    rcases hb with h | h | h | h | h | h | h <;> subst h <;> norm_num [lastBarX]
  · rw [runX]
    rfl
  · rw [runX]
    rfl
  · rw [runX]
    rfl

/-- Counterexample to claim C6 as stated: on the valid series
`barsX (100 - 1/7600)` the engine stores the trade's profit-and-loss, whose
unrounded value is exactly −1/8 (= −0.125), as −0.12 (JS `Math.round` rounds
half toward +∞), whereas round-half-away-from-zero on the cent gives −0.13. -/
theorem c6_counterexample :
    ((runBacktestCore "SYM" "NAME" (barsX (100 - 1/7600))).trades.getD 0 default).pnl =
      formatNumber (950 * (100 - 1/7600) - 95000) ∧
    (950 : ℚ) * (100 - 1/7600) - 95000 = -(1/8) ∧
    formatNumber (-(1/8)) = -(12/100) ∧
    roundHalfAwayFromZeroCents (-(1/8)) = -(13/100) ∧
    ((-(12/100) : ℚ) ≠ -(13/100)) := by
  refine ⟨?_, by norm_num, ?_, ?_, by norm_num⟩
  · rw [runX]
    rfl
  · norm_num [formatNumber, jsRound]
  · rw [roundHalfAwayFromZeroCents, if_pos (by norm_num)]
    norm_num

/-- Counterexample to claim C9 as stated: on the valid series
`barsX (100 + 1/950)` the run gains exactly 1.00 on 100000, so
`(final − initial) / initial × 100 = 0.001`, but the stored `totalReturnPct`
is `0` (the formula's value rounded to 2 decimals), not `0.001`. -/
theorem c9_counterexample :
    (runBacktestCore "SYM" "NAME" (barsX (100 + 1/950))).summary.initialEquity = 100000 ∧
    (runBacktestCore "SYM" "NAME" (barsX (100 + 1/950))).summary.finalEquity = 100001 ∧
    (runBacktestCore "SYM" "NAME" (barsX (100 + 1/950))).summary.totalReturnPct = 0 ∧
    ((100001 : ℚ) - 100000) / 100000 * 100 = 1/1000 ∧
    ((0 : ℚ) ≠ 1/1000) := by
  rw [runX]
  refine ⟨?_, ?_, ?_, by norm_num, by norm_num⟩
  · show (mkSummary [tradeX (100 + 1/950)] (sX8 (100 + 1/950)).equityCurve).initialEquity = 100000
    norm_num [mkSummary, sX8, ptFlat, List.get?, formatNumber, jsRound]
  · show (mkSummary [tradeX (100 + 1/950)] (sX8 (100 + 1/950)).equityCurve).finalEquity = 100001
    norm_num [mkSummary, sX8, ptFlat, List.get?, formatNumber, jsRound]
  · show (mkSummary [tradeX (100 + 1/950)] (sX8 (100 + 1/950)).equityCurve).totalReturnPct = 0
    norm_num [mkSummary, sX8, ptFlat, List.get?, formatNumber, jsRound]

/-! ## Claim theorems -/

/-- Claim C5: throughout the simulated timeline the held share count is
non-negative, the single pending order (if any) has a positive share count,
a pending buy order implies the position is flat (a buy is never created
while `shares > 0`), a pending sell order carries exactly the held shares
(and is never created while `shares == 0`, since its count is positive), and
while an order is outstanding the signal-evaluation phase leaves it
untouched (a new signal is ignored). -/
theorem c5_invariants (bars : List PriceBar) (n : ℕ) :
    0 ≤ (loopState bars n).shares ∧
    (∀ o, (loopState bars n).pendingOrder = some o →
      0 < o.shares ∧
      (o.type = OrderType.buy → (loopState bars n).shares = 0) ∧
      (o.type = OrderType.sell → o.shares = (loopState bars n).shares ∧
        0 < (loopState bars n).shares)) ∧
    (∀ o, (loopState bars n).pendingOrder = some o →
      plannedOrder (closesOf bars) bars n (loopState bars n) = some o) := by
  refine ⟨(loopInv bars n).sharesNonneg, ?_, ?_⟩
  · intro o ho
    obtain ⟨_, _, _, hpos, hbuy, hsell⟩ := (loopInv bars n).pending o ho
    refine ⟨hpos, fun hb => (hbuy hb).1, fun hs => ⟨hsell hs, ?_⟩⟩
    rw [← hsell hs]
    exact hpos
  · intro o ho
    exact plannedOrder_of_some _ _ _ _ _ ho

theorem getD_eq_get {α : Type} [Inhabited α] (l : List α) (j : ℕ) (h : j < l.length) :
    l.getD j default = l.get ⟨j, h⟩ := by
  rw [List.getD_eq_getElem?_getD, List.getElem?_eq_getElem h, List.get_eq_getElem]
  rfl

theorem pairwise_dates {bars : List PriceBar}
    (hasc : bars.Pairwise (fun a b => jsLtStr a.Date b.Date = true))
    {j k : ℕ} (hjk : j < k) (hk : k < bars.length) :
    jsLtStr (bars.getD j default).Date (bars.getD k default).Date = true := by
  have hj : j < bars.length := hjk.trans hk
  rw [List.pairwise_iff_get] at hasc
  have h := hasc ⟨j, hj⟩ ⟨k, hk⟩ hjk
  rwa [getD_eq_get bars j hj, getD_eq_get bars k hk]

theorem runBacktestCore_trades (sym name : String) (bars : List PriceBar) :
    (runBacktestCore sym name bars).trades = (liquidate bars (runLoop bars)).trades := rfl

theorem runBacktestCore_equityCurve (sym name : String) (bars : List PriceBar) :
    (runBacktestCore sym name bars).equityCurve =
      (liquidate bars (runLoop bars)).equityCurve := rfl

theorem runBacktestCore_summary (sym name : String) (bars : List PriceBar) :
    (runBacktestCore sym name bars).summary =
      mkSummary (liquidate bars (runLoop bars)).trades
        (liquidate bars (runLoop bars)).equityCurve := rfl

theorem liquidate_of_nonpos (bars : List PriceBar) (s : EngineState) (h : ¬ 0 < s.shares) :
    liquidate bars s = s := by
  unfold liquidate
  rw [if_neg h]

theorem liquidate_of_pos (bars : List PriceBar) (s : EngineState) (h : 0 < s.shares) :
    liquidate bars s =
      { s with
        cash := s.cash + s.shares * (bars.getD (bars.length - 1) default).Close,
        trades := s.trades ++ [{
          entryDate := s.entryDate,
          exitDate := (bars.getD (bars.length - 1) default).Date,
          entryPrice := formatNumber s.entryPrice,
          exitPrice := formatNumber (bars.getD (bars.length - 1) default).Close,
          shares := s.shares,
          pnl := formatNumber (s.shares * (bars.getD (bars.length - 1) default).Close -
            s.shares * s.entryPrice),
          returnPct := formatNumber (if s.shares * s.entryPrice > 0 then
            (s.shares * (bars.getD (bars.length - 1) default).Close -
              s.shares * s.entryPrice) / (s.shares * s.entryPrice) * 100 else 0) }],
        shares := 0,
        entryPrice := 0,
        entryDate := "",
        equityCurve := s.equityCurve.set (s.equityCurve.length - 1)
          { Date := (bars.getD (bars.length - 1) default).Date,
            Equity := formatNumber (s.cash +
              s.shares * (bars.getD (bars.length - 1) default).Close) } } := by
  unfold liquidate
  rw [if_pos h]

/-- Claim C2, amended: on a valid (date-ascending) series, every trade has a
positive share count and `exitDate ≥ entryDate`; trades closed by a settled
sell order are strict (`exitDate > entryDate`), and the only possible tie is
the forced-liquidation trade when its buy settled on the final bar, in which
case both dates are the last bar's date. -/
theorem c2_amended (sym name : String) (bars : List PriceBar)
    (hasc : bars.Pairwise (fun a b => jsLtStr a.Date b.Date = true)) :
    (∀ t ∈ (runLoop bars).trades, 0 < t.shares ∧ jsLtStr t.entryDate t.exitDate = true) ∧
    (∀ t ∈ (runBacktestCore sym name bars).trades, 0 < t.shares ∧
      (jsLtStr t.entryDate t.exitDate = true ∨
        (t.entryDate = t.exitDate ∧
          t.exitDate = (bars.getD (bars.length - 1) default).Date))) := by
  have hloop : ∀ t ∈ (runLoop bars).trades,
      0 < t.shares ∧ jsLtStr t.entryDate t.exitDate = true := by
    intro t ht
    obtain ⟨h1, _, _, _, _, j, k, hjk, hk, hj1, hj2⟩ := (loopInv bars bars.length).tradesSpec t ht
    refine ⟨h1, ?_⟩
    rw [hj1, hj2]
    exact pairwise_dates hasc hjk hk
  refine ⟨hloop, ?_⟩
  intro t ht
  rw [runBacktestCore_trades] at ht
  by_cases hsh : 0 < (runLoop bars).shares
  · rw [liquidate_of_pos _ _ hsh] at ht
    simp only [List.mem_append, List.mem_singleton] at ht
    rcases ht with ht | rfl
    · obtain ⟨h1, h2⟩ := hloop t ht
      exact ⟨h1, Or.inl h2⟩
    · obtain ⟨j, hj, hd⟩ := (loopInv bars bars.length).entry hsh
      refine ⟨hsh, ?_⟩
      rcases Nat.lt_or_ge j (bars.length - 1) with hjlt | hjge
      · left
        show jsLtStr (loopState bars bars.length).entryDate
          (bars.getD (bars.length - 1) default).Date = true
        rw [hd]
        exact pairwise_dates hasc hjlt (by omega)
      · right
        have : j = bars.length - 1 := by omega
        subst this
        exact ⟨hd, rfl⟩
  · rw [liquidate_of_nonpos _ _ hsh] at ht
    obtain ⟨h1, h2⟩ := hloop t ht
    exact ⟨h1, Or.inl h2⟩

/-- Witness for `c2_amended`: the hypotheses hold and the conclusion is
produced at the concrete valid series `barsX 100`. -/
theorem c2_amended_witness :
    (barsX 100).Pairwise (fun a b => jsLtStr a.Date b.Date = true) ∧
    ((∀ t ∈ (runLoop (barsX 100)).trades,
        0 < t.shares ∧ jsLtStr t.entryDate t.exitDate = true) ∧
      (∀ t ∈ (runBacktestCore "SYM" "NAME" (barsX 100)).trades, 0 < t.shares ∧
        (jsLtStr t.entryDate t.exitDate = true ∨
          (t.entryDate = t.exitDate ∧
            t.exitDate = ((barsX 100).getD ((barsX 100).length - 1) default).Date)))) :=
  ⟨by decide, c2_amended "SYM" "NAME" (barsX 100) (by decide)⟩

theorem createOrder_pendingOrder (closes : List ℚ) (bars : List PriceBar) (i : ℕ)
    (s : EngineState) :
    (createOrder closes bars i s).pendingOrder = plannedOrder closes bars i s := rfl

/-- Claim C4: (1) whenever a pending buy order exists, its share count is
exactly `floor(0.95 × cash ÷ order price)` of the cash available when it
settles, the count is positive, and settling it debits cash by
`shares × price`, credits the shares, records entry price and date, clears
the order, and emits no trade; (2) when a crossover-up fires while flat with
a next bar whose open makes the computed share count zero, the step changes
no cash, shares, or trades, and leaves no pending order — the signal is
silently dropped without error. -/
theorem c4_buy_settlement (bars : List PriceBar) :
    (∀ m o, (loopState bars m).pendingOrder = some o → o.type = OrderType.buy →
      o.shares = jsFloor ((loopState bars m).cash * 0.95 / o.price) ∧ 0 < o.shares ∧
      settleOrder (bars.getD m default) (loopState bars m) =
        { loopState bars m with
          cash := (loopState bars m).cash - o.shares * o.price,
          shares := (loopState bars m).shares + o.shares,
          entryPrice := o.price, entryDate := o.date, pendingOrder := none } ∧
      (settleOrder (bars.getD m default) (loopState bars m)).trades =
        (loopState bars m).trades) ∧
    (∀ n nb, bars.get? (n + 1) = some nb → (loopState bars n).pendingOrder = none →
      (loopState bars n).shares = 0 → crossoverUp (closesOf bars) n →
      jsFloor ((loopState bars n).cash * 0.95 / nb.Open) ≤ 0 →
      (loopState bars (n + 1)).cash = (loopState bars n).cash ∧
      (loopState bars (n + 1)).shares = 0 ∧
      (loopState bars (n + 1)).trades = (loopState bars n).trades ∧
      (loopState bars (n + 1)).pendingOrder = none) := by
  constructor
  · intro m o ho hbuy
    obtain ⟨_, hdate, _, hpos, hbuyspec, _⟩ := (loopInv bars m).pending o ho
    obtain ⟨_, hform⟩ := hbuyspec hbuy
    have hsh : o.shares = jsFloor ((loopState bars m).cash * 0.95 / o.price) := by omega
    refine ⟨hsh, hpos, ?_, ?_⟩
    · exact settleOrder_of_buy _ _ o ho hbuy hdate
    · rw [settleOrder_of_buy _ _ o ho hbuy hdate]
  · intro n nb hnb hpo hsh hup hzero
    have hplanned : plannedOrder (closesOf bars) bars n (loopState bars n) = none := by
      unfold plannedOrder
      rw [hpo, hnb]
      dsimp only
      rw [if_pos ⟨by rw [hsh]; exact lt_irrefl 0, hup⟩]
      rw [if_neg (by omega)]
    rw [loopState_succ, stepBar_eq_mark_mid]
    refine ⟨?_, ?_, ?_, ?_⟩
    · rw [markEquity_cash, midState_cash, settleOrder_of_none _ _ hpo]
    · rw [markEquity_shares, midState_shares, settleOrder_of_none _ _ hpo, hsh]
    · rw [markEquity_trades, midState_trades, settleOrder_of_none _ _ hpo]
    · rw [markEquity_pendingOrder, midState_pendingOrder, settleOrder_of_none _ _ hpo, hplanned]

theorem list_set_self {α : Type} {l : List α} {i : ℕ} {a : α} (h : l.get? i = some a) :
    l.set i a = l := by
  induction l generalizing i with
  | nil => cases i <;> rfl
  | cons b bs ih =>
    cases i with
    | zero =>
      simp only [List.get?] at h
      rw [List.set_cons_zero, Option.some_inj.mp h]
    | succ n =>
      simp only [List.get?] at h
      rw [List.set_cons_succ, ih h]

theorem runLoop_curve (bars : List PriceBar) :
    (runLoop bars).equityCurve = (List.range bars.length).map (barPoint bars) :=
  (loopInv bars bars.length).curve

theorem runLoop_length_pos (bars : List PriceBar) (h : 0 < (runLoop bars).shares) :
    0 < bars.length := by
  obtain ⟨j, hj, _⟩ := (loopInv bars bars.length).entry h
  omega

theorem runLoop_eq_mark (bars : List PriceBar) (h : 0 < bars.length) :
    runLoop bars = markEquity (bars.getD (bars.length - 1) default)
      (midState bars (bars.length - 1)) := by
  have hlen : bars.length = (bars.length - 1) + 1 := by omega
  rw [runLoop]
  conv_lhs => rw [hlen]
  rw [loopState_succ, stepBar_eq_mark_mid]

theorem get?_map_range {α : Type} (f : ℕ → α) (n k : ℕ) (h : k < n) :
    ((List.range n).map f).get? k = some (f k) := by
  rw [List.get?_map, List.get?_range h]
  rfl

theorem liquidate_curve_noop (bars : List PriceBar) :
    (liquidate bars (runLoop bars)).equityCurve = (runLoop bars).equityCurve := by
  by_cases hsh : 0 < (runLoop bars).shares
  · have hlen : 0 < bars.length := runLoop_length_pos bars hsh
    rw [liquidate_of_pos _ _ hsh]
    have hcl : (runLoop bars).equityCurve.length = bars.length := by
      rw [runLoop_curve, List.length_map, List.length_range]
    have hpt : (⟨(bars.getD (bars.length - 1) default).Date,
        formatNumber ((runLoop bars).cash +
          (runLoop bars).shares * (bars.getD (bars.length - 1) default).Close)⟩ : EquityPoint) =
        barPoint bars (bars.length - 1) := by
      unfold barPoint
      rw [runLoop_eq_mark bars hlen, markEquity_cash, markEquity_shares]
    have hget : (runLoop bars).equityCurve.get? (bars.length - 1) =
        some (barPoint bars (bars.length - 1)) := by
      rw [runLoop_curve]
      exact get?_map_range _ _ _ (by omega)
    rw [hcl, hpt]
    exact list_set_self hget
  · rw [liquidate_of_nonpos _ _ hsh]

/-- Claim C10: the forced-liquidation overwrite of the final equity point
never changes the equity curve — the liquidation price is the last bar's
close, so the rewritten value `round2(cash + shares × close)` equals the
value the loop already recorded for that bar, and the curve of the returned
result equals the loop's curve exactly. -/
theorem c10_overwrite_value (sym name : String) (bars : List PriceBar) :
    (liquidate bars (runLoop bars)).equityCurve = (runLoop bars).equityCurve ∧
    (runBacktestCore sym name bars).equityCurve = (runLoop bars).equityCurve := by
  refine ⟨liquidate_curve_noop bars, ?_⟩
  rw [runBacktestCore_equityCurve]
  exact liquidate_curve_noop bars

/-- Claim C7: if the series ends with an open position the engine liquidates
it at the last bar's close (not its open), appends a closing trade dated at
the last bar, and overwrites the last equity point with the realized cash
value; every equity point before the last is returned unchanged, and when no
position is open nothing is appended or rewritten. -/
theorem c7_forced_liquidation (sym name : String) (bars : List PriceBar) :
    (0 < (runLoop bars).shares →
      (runBacktestCore sym name bars).trades = (runLoop bars).trades ++ [{
        entryDate := (runLoop bars).entryDate,
        exitDate := (bars.getD (bars.length - 1) default).Date,
        entryPrice := formatNumber (runLoop bars).entryPrice,
        exitPrice := formatNumber (bars.getD (bars.length - 1) default).Close,
        shares := (runLoop bars).shares,
        pnl := formatNumber ((runLoop bars).shares *
          (bars.getD (bars.length - 1) default).Close -
          (runLoop bars).shares * (runLoop bars).entryPrice),
        returnPct := formatNumber (if (runLoop bars).shares * (runLoop bars).entryPrice > 0 then
          ((runLoop bars).shares * (bars.getD (bars.length - 1) default).Close -
            (runLoop bars).shares * (runLoop bars).entryPrice) /
            ((runLoop bars).shares * (runLoop bars).entryPrice) * 100 else 0) }] ∧
      (runBacktestCore sym name bars).equityCurve =
        (runLoop bars).equityCurve.set ((runLoop bars).equityCurve.length - 1)
          { Date := (bars.getD (bars.length - 1) default).Date,
            Equity := formatNumber ((runLoop bars).cash +
              (runLoop bars).shares * (bars.getD (bars.length - 1) default).Close) } ∧
      (runBacktestCore sym name bars).equityCurve.length =
        (runLoop bars).equityCurve.length ∧
      (∀ k, k < (runLoop bars).equityCurve.length - 1 →
        (runBacktestCore sym name bars).equityCurve.get? k =
          (runLoop bars).equityCurve.get? k)) ∧
    ((runLoop bars).shares ≤ 0 →
      (runBacktestCore sym name bars).trades = (runLoop bars).trades ∧
      (runBacktestCore sym name bars).equityCurve = (runLoop bars).equityCurve) := by
  constructor
  · intro hsh
    refine ⟨?_, ?_, ?_, ?_⟩
    · rw [runBacktestCore_trades, liquidate_of_pos _ _ hsh]
    · rw [runBacktestCore_equityCurve, liquidate_of_pos _ _ hsh]
    · rw [runBacktestCore_equityCurve, liquidate_of_pos _ _ hsh]
      exact List.length_set _ _ _
    · intro k hk
      rw [runBacktestCore_equityCurve, liquidate_of_pos _ _ hsh]
      show ((runLoop bars).equityCurve.set ((runLoop bars).equityCurve.length - 1) _).get? k = _
      rw [List.get?_eq_getElem?, List.get?_eq_getElem?, List.getElem?_set]
      rw [if_neg (by omega)]
  · intro hsh
    rw [runBacktestCore_trades, runBacktestCore_equityCurve,
      liquidate_of_nonpos _ _ (not_lt.mpr hsh)]
    exact ⟨rfl, rfl⟩

/-- Claim C8: for every bar `k` of the input series, the result's equity
curve has exactly one point per bar (its length equals the bar count), and
the point at position `k` carries bar `k`'s date and the value
`cash + shares × close(k)` of the state after bar `k`'s order settlement and
signal evaluation, rounded to cents — for every bar, including bars where an
order just settled, and unchanged by the final liquidation overwrite. -/
theorem c8_equity_marking (sym name : String) (bars : List PriceBar) (k : ℕ)
    (hk : k < bars.length) :
    (runBacktestCore sym name bars).equityCurve.length = bars.length ∧
    (runBacktestCore sym name bars).equityCurve.get? k =
      some { Date := (bars.getD k default).Date,
             Equity := formatNumber ((midState bars k).cash +
               (midState bars k).shares * (bars.getD k default).Close) } := by
  rw [runBacktestCore_equityCurve, liquidate_curve_noop, runLoop_curve]
  constructor
  · rw [List.length_map, List.length_range]
  · rw [get?_map_range _ _ _ hk]
    rfl

/-- Witness for `c8_equity_marking`: its hypothesis and conclusion at the
concrete series `barsX 100` and bar index 3. -/
theorem c8_equity_marking_witness :
    (3 < (barsX 100).length) ∧
    ((runBacktestCore "SYM" "NAME" (barsX 100)).equityCurve.length = (barsX 100).length ∧
      (runBacktestCore "SYM" "NAME" (barsX 100)).equityCurve.get? 3 =
        some { Date := ((barsX 100).getD 3 default).Date,
               Equity := formatNumber ((midState (barsX 100) 3).cash +
                 (midState (barsX 100) 3).shares * ((barsX 100).getD 3 default).Close) }) :=
  ⟨by decide, c8_equity_marking "SYM" "NAME" (barsX 100) 3 (by decide)⟩

theorem sum_take_getD (l : List ℚ) : ∀ m, m ≤ l.length →
    (l.take m).sum = ∑ j ∈ Finset.range m, l.getD j 0 := by
  induction l with
  | nil =>
    intro m hm
    rw [Nat.le_zero.mp hm]
    simp
  | cons a l ih =>
    intro m hm
    cases m with
    | zero => simp
    | succ n =>
      rw [List.take_succ_cons, List.sum_cons, Finset.sum_range_succ']
      simp only [List.getD_cons_succ, List.getD_cons_zero]
      rw [ih n (by simpa using hm)]
      ring

theorem getD_drop_shift (l : List ℚ) (s j : ℕ) : (l.drop s).getD j 0 = l.getD (s + j) 0 := by
  rw [List.getD_eq_getElem?_getD, List.getD_eq_getElem?_getD, List.getElem?_drop]

theorem sma_eq_mean (series : List ℚ) (i p : ℕ) (hi : i < series.length) (hp : 0 < p) :
    simpleMovingAverage series i p =
      (∑ j ∈ Finset.range (min p (i + 1)), series.getD (i - j) 0) / (min p (i + 1)) := by
  unfold simpleMovingAverage
  have hstart : i + 1 - (i + 1 - p) = min p (i + 1) := by omega
  have hlen : (series.drop (i + 1 - p)).length = series.length - (i + 1 - p) :=
    List.length_drop _ _
  have h2 : ((series.drop (i + 1 - p)).take (i + 1 - (i + 1 - p))).length = min p (i + 1) := by
    rw [List.length_take, hlen, hstart]
    omega
  have hc : ((series.drop (i + 1 - p)).take (i + 1 - (i + 1 - p))).length ≠ 0 := by
    rw [h2]
    omega
  rw [if_pos hc, h2]
  congr 1
  rw [hstart, sum_take_getD _ _ (by rw [hlen]; omega)]
  calc ∑ j ∈ Finset.range (min p (i + 1)), (series.drop (i + 1 - p)).getD j 0
      = ∑ j ∈ Finset.range (min p (i + 1)), series.getD ((i + 1 - p) + j) 0 :=
        Finset.sum_congr rfl (fun j _ => getD_drop_shift _ _ _)
    _ = ∑ j ∈ Finset.range (min p (i + 1)), series.getD (i - j) 0 := by
        rw [← Finset.sum_range_reflect (fun j => series.getD (i - j) 0) (min p (i + 1))]
        refine Finset.sum_congr rfl (fun j hj => ?_)
        rw [Finset.mem_range] at hj
        congr 1
        omega

/-- Claim C3: for every in-range bar index, the fast and slow moving averages
equal the arithmetic mean of adjusted close over the trailing
`min(window, i+1)` bars ending at `i` (windows 5 and 15), with a never-zero
divisor (always defined); a crossover-up holds at `i` iff `fast(i) > slow(i)`
and `fast(i-1) ≤ slow(i-1)` with `i > 0` (bar 0's previous values equal its
own, so neither signal can hold at the first bar), and symmetrically for
crossover-down. -/
theorem c3_sma_and_signals (series : List ℚ) (i : ℕ) (hi : i < series.length) :
    (fastOf series i =
      (∑ j ∈ Finset.range (min FAST_LENGTH (i + 1)), series.getD (i - j) 0) /
        (min FAST_LENGTH (i + 1)) ∧ min FAST_LENGTH (i + 1) ≠ 0) ∧
    (slowOf series i =
      (∑ j ∈ Finset.range (min SLOW_LENGTH (i + 1)), series.getD (i - j) 0) /
        (min SLOW_LENGTH (i + 1)) ∧ min SLOW_LENGTH (i + 1) ≠ 0) ∧
    (crossoverUp series i ↔ fastOf series i > slowOf series i ∧
      fastOf series (i - 1) ≤ slowOf series (i - 1) ∧ 0 < i) ∧
    (crossoverDown series i ↔ fastOf series i < slowOf series i ∧
      fastOf series (i - 1) ≥ slowOf series (i - 1) ∧ 0 < i) ∧
    ¬ crossoverUp series 0 ∧ ¬ crossoverDown series 0 := by
  have hup0 : ¬ crossoverUp series 0 := by
    rintro ⟨h1, h2⟩
    unfold prevFastOf prevSlowOf at h2
    rw [if_neg (lt_irrefl 0)] at h2
    exact absurd (lt_of_le_of_lt h2 h1) (lt_irrefl _)
  have hdown0 : ¬ crossoverDown series 0 := by
    rintro ⟨h1, h2⟩
    unfold prevFastOf prevSlowOf at h2
    rw [if_neg (lt_irrefl 0)] at h2
    exact absurd (lt_of_le_of_lt h2 h1) (lt_irrefl _)
  refine ⟨⟨sma_eq_mean series i FAST_LENGTH hi (by norm_num [FAST_LENGTH]),
      by simp only [FAST_LENGTH]; omega⟩,
    ⟨sma_eq_mean series i SLOW_LENGTH hi (by norm_num [SLOW_LENGTH]),
      by simp only [SLOW_LENGTH]; omega⟩, ?_, ?_, hup0, hdown0⟩
  · rcases Nat.eq_zero_or_pos i with rfl | hpos
    · exact ⟨fun h => absurd h hup0, fun ⟨_, _, h⟩ => absurd h (lt_irrefl 0)⟩
    · unfold crossoverUp prevFastOf prevSlowOf
      simp only [if_pos hpos]
      exact ⟨fun ⟨a, b⟩ => ⟨a, b, hpos⟩, fun ⟨a, b, _⟩ => ⟨a, b⟩⟩
  · rcases Nat.eq_zero_or_pos i with rfl | hpos
    · exact ⟨fun h => absurd h hdown0, fun ⟨_, _, h⟩ => absurd h (lt_irrefl 0)⟩
    · unfold crossoverDown prevFastOf prevSlowOf
      simp only [if_pos hpos]
      exact ⟨fun ⟨a, b⟩ => ⟨a, b, hpos⟩, fun ⟨a, b, _⟩ => ⟨a, b⟩⟩

/-- Witness for `c3_sma_and_signals`: its hypothesis and conclusion at the
concrete series `[1, 2, 3]` and index 1. -/
theorem c3_sma_and_signals_witness :
    (1 < ([1, 2, 3] : List ℚ).length) ∧
    ((fastOf [1, 2, 3] 1 =
        (∑ j ∈ Finset.range (min FAST_LENGTH (1 + 1)), ([1, 2, 3] : List ℚ).getD (1 - j) 0) /
          (min FAST_LENGTH (1 + 1)) ∧ min FAST_LENGTH (1 + 1) ≠ 0) ∧
      (slowOf [1, 2, 3] 1 =
        (∑ j ∈ Finset.range (min SLOW_LENGTH (1 + 1)), ([1, 2, 3] : List ℚ).getD (1 - j) 0) /
          (min SLOW_LENGTH (1 + 1)) ∧ min SLOW_LENGTH (1 + 1) ≠ 0) ∧
      (crossoverUp [1, 2, 3] 1 ↔ fastOf [1, 2, 3] 1 > slowOf [1, 2, 3] 1 ∧
        fastOf [1, 2, 3] (1 - 1) ≤ slowOf [1, 2, 3] (1 - 1) ∧ 0 < 1) ∧
      (crossoverDown [1, 2, 3] 1 ↔ fastOf [1, 2, 3] 1 < slowOf [1, 2, 3] 1 ∧
        fastOf [1, 2, 3] (1 - 1) ≥ slowOf [1, 2, 3] (1 - 1) ∧ 0 < 1) ∧
      ¬ crossoverUp [1, 2, 3] 0 ∧ ¬ crossoverDown [1, 2, 3] 0) :=
  ⟨by decide, c3_sma_and_signals [1, 2, 3] 1 (by decide)⟩

theorem result_trades_basic (sym name : String) (bars : List PriceBar) :
    ∀ t ∈ (runBacktestCore sym name bars).trades,
      0 < t.shares ∧ isCents t.entryPrice ∧ isCents t.exitPrice ∧
        isCents t.pnl ∧ isCents t.returnPct := by
  intro t ht
  rw [runBacktestCore_trades] at ht
  by_cases hsh : 0 < (runLoop bars).shares
  · rw [liquidate_of_pos _ _ hsh] at ht
    simp only [List.mem_append, List.mem_singleton] at ht
    rcases ht with ht | rfl
    · obtain ⟨h1, h2, h3, h4, h5, _⟩ := (loopInv bars bars.length).tradesSpec t ht
      exact ⟨h1, h2, h3, h4, h5⟩
    · exact ⟨hsh, isCents_formatNumber _, isCents_formatNumber _, isCents_formatNumber _,
        isCents_formatNumber _⟩
  · rw [liquidate_of_nonpos _ _ hsh] at ht
    obtain ⟨h1, h2, h3, h4, h5, _⟩ := (loopInv bars bars.length).tradesSpec t ht
    exact ⟨h1, h2, h3, h4, h5⟩

theorem result_curve_cents (sym name : String) (bars : List PriceBar) :
    ∀ p ∈ (runBacktestCore sym name bars).equityCurve, isCents p.Equity := by
  intro p hp
  rw [runBacktestCore_equityCurve, liquidate_curve_noop, runLoop_curve] at hp
  obtain ⟨k, _, rfl⟩ := List.mem_map.mp hp
  exact isCents_formatNumber _

theorem mkSummary_initialEquity (tr : List Trade) (ec : List EquityPoint) :
    (mkSummary tr ec).initialEquity =
      formatNumber (((ec.get? 0).map (·.Equity)).getD INITIAL_EQUITY) := rfl

theorem mkSummary_finalEquity (tr : List Trade) (ec : List EquityPoint) :
    (mkSummary tr ec).finalEquity =
      formatNumber (((ec.get? (ec.length - 1)).map (·.Equity)).getD
        (((ec.get? 0).map (·.Equity)).getD INITIAL_EQUITY)) := rfl

theorem mkSummary_totalReturnPct (tr : List Trade) (ec : List EquityPoint) :
    (mkSummary tr ec).totalReturnPct =
      formatNumber (if (((ec.get? 0).map (·.Equity)).getD INITIAL_EQUITY) ≠ 0 then
        ((((ec.get? (ec.length - 1)).map (·.Equity)).getD
            (((ec.get? 0).map (·.Equity)).getD INITIAL_EQUITY)) -
          (((ec.get? 0).map (·.Equity)).getD INITIAL_EQUITY)) /
          (((ec.get? 0).map (·.Equity)).getD INITIAL_EQUITY) * 100 else 0) := rfl

theorem mkSummary_tradeCount (tr : List Trade) (ec : List EquityPoint) :
    (mkSummary tr ec).tradeCount = tr.length := rfl

theorem mkSummary_winRatePct (tr : List Trade) (ec : List EquityPoint) :
    (mkSummary tr ec).winRatePct =
      formatNumber (if tr.length ≠ 0 then
        (((tr.filter (fun t => t.pnl > 0)).length : ℚ)) / tr.length * 100 else 0) := rfl

/-- Claim C6, amended: every monetary and percentage value stored in the
output (trade entryPrice, exitPrice, pnl, returnPct; each equity point's
Equity; summary initialEquity, finalEquity, totalReturnPct, winRatePct) is a
whole number of cents, fixed by `formatNumber`; and `formatNumber` rounds to
the cent with JS `Math.round` semantics — the result is the unique
cent value in the half-open interval `(q - 1/200, q + 1/200]`, i.e. round
half toward positive infinity, not round half away from zero. -/
theorem c6_amended (sym name : String) (bars : List PriceBar) :
    (∀ t ∈ (runBacktestCore sym name bars).trades,
      isCents t.entryPrice ∧ isCents t.exitPrice ∧ isCents t.pnl ∧ isCents t.returnPct) ∧
    (∀ p ∈ (runBacktestCore sym name bars).equityCurve, isCents p.Equity) ∧
    isCents (runBacktestCore sym name bars).summary.initialEquity ∧
    isCents (runBacktestCore sym name bars).summary.finalEquity ∧
    isCents (runBacktestCore sym name bars).summary.totalReturnPct ∧
    isCents (runBacktestCore sym name bars).summary.winRatePct ∧
    (∀ q : ℚ, formatNumber q = q ↔ isCents q) ∧
    (∀ q : ℚ, isCents (formatNumber q) ∧
      q - 1/200 < formatNumber q ∧ formatNumber q ≤ q + 1/200) := by
  refine ⟨?_, result_curve_cents sym name bars, ?_, ?_, ?_, ?_,
    formatNumber_eq_self_iff, fun q => ⟨isCents_formatNumber q, formatNumber_halfUp_bounds q⟩⟩
  · intro t ht
    obtain ⟨_, h2, h3, h4, h5⟩ := result_trades_basic sym name bars t ht
    exact ⟨h2, h3, h4, h5⟩
  · rw [runBacktestCore_summary, mkSummary_initialEquity]
    exact isCents_formatNumber _
  · rw [runBacktestCore_summary, mkSummary_finalEquity]
    exact isCents_formatNumber _
  · rw [runBacktestCore_summary, mkSummary_totalReturnPct]
    exact isCents_formatNumber _
  · rw [runBacktestCore_summary, mkSummary_winRatePct]
    exact isCents_formatNumber _

theorem isCents_INITIAL_EQUITY : isCents INITIAL_EQUITY := by
  refine ⟨10000000, ?_⟩
  norm_num [INITIAL_EQUITY]

theorem curve_head_cents (sym name : String) (bars : List PriceBar) :
    isCents ((((liquidate bars (runLoop bars)).equityCurve.get? 0).map (·.Equity)).getD
      INITIAL_EQUITY) := by
  cases h : (liquidate bars (runLoop bars)).equityCurve.get? 0 with
  | none => exact isCents_INITIAL_EQUITY
  | some p =>
    have hp : p ∈ (runBacktestCore sym name bars).equityCurve := List.get?_mem h
    exact result_curve_cents sym name bars p hp

theorem curve_last_cents (sym name : String) (bars : List PriceBar) :
    isCents ((((liquidate bars (runLoop bars)).equityCurve.get?
        ((liquidate bars (runLoop bars)).equityCurve.length - 1)).map (·.Equity)).getD
      ((((liquidate bars (runLoop bars)).equityCurve.get? 0).map (·.Equity)).getD
        INITIAL_EQUITY)) := by
  cases h : (liquidate bars (runLoop bars)).equityCurve.get?
      ((liquidate bars (runLoop bars)).equityCurve.length - 1) with
  | none => exact curve_head_cents sym name bars
  | some p =>
    have hp : p ∈ (runBacktestCore sym name bars).equityCurve := List.get?_mem h
    exact result_curve_cents sym name bars p hp

/-- Claim C9, amended: the summary satisfies `initialEquity` = the first
equity point's value (or the starting cash 100000 if no points exist),
`finalEquity` = the last equity point's value exactly (post-liquidation,
falling back to `initialEquity` when the curve is empty), `tradeCount` = the
number of trades, and `totalReturnPct` and `winRatePct` equal their
formulas — `(final − initial)/initial × 100` (0 when initial is 0) and
`wins/trades × 100` (0 when no trades) — rounded to 2 decimals at storage. -/
theorem c9_amended (sym name : String) (bars : List PriceBar) :
    (runBacktestCore sym name bars).summary.initialEquity =
      (((runBacktestCore sym name bars).equityCurve.get? 0).map (·.Equity)).getD
        INITIAL_EQUITY ∧
    (runBacktestCore sym name bars).summary.finalEquity =
      (((runBacktestCore sym name bars).equityCurve.get?
          ((runBacktestCore sym name bars).equityCurve.length - 1)).map (·.Equity)).getD
        (runBacktestCore sym name bars).summary.initialEquity ∧
    (runBacktestCore sym name bars).summary.totalReturnPct =
      formatNumber (if (runBacktestCore sym name bars).summary.initialEquity ≠ 0 then
        ((runBacktestCore sym name bars).summary.finalEquity -
          (runBacktestCore sym name bars).summary.initialEquity) /
          (runBacktestCore sym name bars).summary.initialEquity * 100 else 0) ∧
    (runBacktestCore sym name bars).summary.tradeCount =
      (runBacktestCore sym name bars).trades.length ∧
    (runBacktestCore sym name bars).summary.winRatePct =
      formatNumber (if (runBacktestCore sym name bars).trades.length ≠ 0 then
        ((((runBacktestCore sym name bars).trades.filter (fun t => t.pnl > 0)).length : ℚ)) /
          (runBacktestCore sym name bars).trades.length * 100 else 0) := by
  have h1 : (runBacktestCore sym name bars).summary.initialEquity =
      (((liquidate bars (runLoop bars)).equityCurve.get? 0).map (·.Equity)).getD
        INITIAL_EQUITY := by
    rw [runBacktestCore_summary, mkSummary_initialEquity]
    exact formatNumber_of_isCents (curve_head_cents sym name bars)
  have h2 : (runBacktestCore sym name bars).summary.finalEquity =
      (((liquidate bars (runLoop bars)).equityCurve.get?
          ((liquidate bars (runLoop bars)).equityCurve.length - 1)).map (·.Equity)).getD
        ((((liquidate bars (runLoop bars)).equityCurve.get? 0).map (·.Equity)).getD
          INITIAL_EQUITY) := by
    rw [runBacktestCore_summary, mkSummary_finalEquity]
    exact formatNumber_of_isCents (curve_last_cents sym name bars)
  refine ⟨h1, ?_, ?_, rfl, ?_⟩
  · rw [h1, h2]
    rfl
  · rw [h1, h2, runBacktestCore_summary, mkSummary_totalReturnPct]
  · rw [runBacktestCore_summary, mkSummary_winRatePct]
    rfl

theorem exceptIsOk_iff_exists {ε α : Type} (x : Except ε α) :
    exceptIsOk x = true ↔ ∃ a, x = Except.ok a := by
  cases x <;> simp [exceptIsOk]

theorem exceptIsOk_bind {ε α β : Type} (x : Except ε α) (f : α → Except ε β) :
    exceptIsOk (x >>= f) = true ↔ ∃ a, x = Except.ok a ∧ exceptIsOk (f a) = true := by
  cases x <;> simp [exceptIsOk, Bind.bind, Except.bind]

theorem mapM_normalizeRow_isOk (rows : List RawPriceRow) :
    exceptIsOk (rows.mapM normalizeRow) = true ↔
      ∀ r ∈ rows, exceptIsOk (normalizeRow r) = true := by
  induction rows with
  | nil =>
    constructor
    · intro _ r hr
      exact absurd hr (List.not_mem_nil r)
    · intro _
      rfl
  | cons a l ih =>
    rw [List.mapM_cons]
    constructor
    · intro h r hr
      rw [exceptIsOk_bind] at h
      obtain ⟨b, hb, h2⟩ := h
      rw [exceptIsOk_bind] at h2
      obtain ⟨bs, hbs, _⟩ := h2
      rcases List.mem_cons.mp hr with rfl | hr
      · rw [hb]
        rfl
      · exact ih.mp ((exceptIsOk_iff_exists _).mpr ⟨bs, hbs⟩) r hr
    · intro h
      obtain ⟨b, hb⟩ := (exceptIsOk_iff_exists _).mp (h a (List.mem_cons_self a l))
      obtain ⟨bs, hbs⟩ := (exceptIsOk_iff_exists _).mp
        (ih.mpr (fun r hr => h r (List.mem_cons_of_mem a hr)))
      rw [exceptIsOk_bind]
      refine ⟨b, hb, ?_⟩
      rw [exceptIsOk_bind]
      exact ⟨bs, hbs, rfl⟩

theorem insertByDate_length (r : PriceRow) (l : List PriceRow) :
    (insertByDate r l).length = l.length + 1 := by
  induction l with
  | nil => rfl
  | cons b bs ih =>
    unfold insertByDate
    by_cases h : jsLtStr r.Date b.Date
    · rw [if_pos h]
      rfl
    · rw [if_neg h, List.length_cons, List.length_cons, ih]

theorem sortByDate_length (l : List PriceRow) : (sortByDate l).length = l.length := by
  have general : ∀ (m : List PriceRow) (acc : List PriceRow),
      (m.foldl (fun acc r => insertByDate r acc) acc).length = acc.length + m.length := by
    intro m
    induction m with
    | nil => intro acc; rfl
    | cons b bs ih =>
      intro acc
      rw [List.foldl_cons, ih, insertByDate_length, List.length_cons]
      omega
  rw [sortByDate, general, List.length_nil]
  omega

theorem attachNextOpen_length (l : List PriceRow) : (attachNextOpen l).length = l.length := by
  rw [attachNextOpen, List.length_map, List.length_range]

theorem mapM_normalizeRow_length : ∀ (rows : List RawPriceRow) (h : List PriceRow),
    rows.mapM normalizeRow = Except.ok h → h.length = rows.length := by
  intro rows
  induction rows with
  | nil =>
    intro h hh
    cases Except.ok.inj hh
    rfl
  | cons a l ih =>
    intro h hh
    rw [List.mapM_cons] at hh
    cases ha : normalizeRow a with
    | error e =>
      rw [ha] at hh
      exact absurd hh (by simp [Bind.bind, Except.bind])
    | ok b =>
      rw [ha] at hh
      cases hl : l.mapM normalizeRow with
      | error e =>
        rw [hl] at hh
        exact absurd hh (by simp [Bind.bind, Except.bind])
      | ok bs =>
        rw [hl] at hh
        simp only [Bind.bind, Except.bind, pure, Except.pure] at hh
        obtain rfl := (Except.ok.inj hh).symm
        rw [List.length_cons, ih bs hl]
        exact (List.length_cons a l).symm

/-- Claim C1, amended: the input pipeline fails only when a row's date is
missing or unparseable or a numeric field is missing or non-finite. It
accepts every finite number — including negative prices — without any sign
check; it does not reject an empty series (the engine then returns a full
result over zero bars); it does not reject non-ascending input (rows are
sorted by date instead) nor duplicate dates (kept, in stable order); and
since success is row-local, a series merely shorter than the slow window
(15 bars) never fails and degrades to partial-window averages. -/
theorem c1_amended (rows : List RawPriceRow) :
    (exceptIsOk (processHistory rows) = true ↔
      ∀ r ∈ rows, exceptIsOk (normalizeRow r) = true) ∧
    (∀ (q : ℚ) (f : String), normalizeNumber (RawValue.fin q) f = Except.ok q) ∧
    (∀ f : String, normalizeNumber RawValue.nonfinite f =
      Except.error ("Invalid numeric value for " ++ f)) ∧
    (∀ h, processHistory rows = Except.ok h → h.length = rows.length) := by
  refine ⟨?_, fun q f => rfl, fun f => rfl, ?_⟩
  · rw [processHistory]
    rw [exceptIsOk_bind]
    constructor
    · rintro ⟨normalized, hn, _⟩
      exact (mapM_normalizeRow_isOk rows).mp ((exceptIsOk_iff_exists _).mpr ⟨normalized, hn⟩)
    · intro h
      obtain ⟨normalized, hn⟩ :=
        (exceptIsOk_iff_exists _).mp ((mapM_normalizeRow_isOk rows).mpr h)
      exact ⟨normalized, hn, rfl⟩
  · intro h hh
    rw [processHistory] at hh
    cases hn : rows.mapM normalizeRow with
    | error e =>
      rw [hn] at hh
      exact absurd hh (by simp [Bind.bind, Except.bind])
    | ok normalized =>
      rw [hn] at hh
      simp only [Bind.bind, Except.bind, pure, Except.pure] at hh
      obtain rfl := (Except.ok.inj hh).symm
      rw [attachNextOpen_length, sortByDate_length, mapM_normalizeRow_length rows _ hn]

/-- Counterexample to claim C1 as stated: a negative price field is accepted
by `normalizeNumber` (no sign check exists), an empty series is processed
successfully into an empty (not failed) result and the engine then returns a
complete `BacktestResult` over it, and a non-ascending two-row input is not
rejected but sorted (its processed dates come out ascending); duplicate
dates are likewise accepted. -/
theorem c1_counterexample :
    normalizeNumber (RawValue.fin (-5)) "Close" = Except.ok (-5) ∧
    processHistory [] = Except.ok [] ∧
    (runBacktestCore "SYM" "NAME" []).equityCurve = [] ∧
    (runBacktestCore "SYM" "NAME" []).trades = [] ∧
    (runBacktestCore "SYM" "NAME" []).summary.tradeCount = 0 ∧
    exceptIsOk (normalizeRow rawRowB) = true ∧
    exceptIsOk (processHistory [rawRowB, rawRowA]) = true ∧
    ((processHistory [rawRowB, rawRowA]).toOption.map (fun l => l.map (·.Date))).getD [] =
      ["2024-01-01", "2024-01-02"] ∧
    exceptIsOk (processHistory [rawRowA, rawRowA]) = true := by
  refine ⟨rfl, rfl, rfl, rfl, rfl, ?_, ?_, ?_, ?_⟩ <;> decide
